import Mathlib

/-!
Verification of the miniwuit service-registry / lifecycle framework.

Shallow embedding of the service-map (Registry), reference-count
discipline, lifecycle traces, tuple composition, the top-level
boundary entry points and the router composition lattice, translated
from the Rust sources under `src/`.
-/

set_option maxHeartbeats 1000000

namespace Miniwuit

/-! ### Service map (Registry)

`Map = RwLock<BTreeMap<String, MapVal>>`, where a `MapVal` is a pair of
weak handles.  We model the map as an association list with
overwrite-on-insert (the semantics of `BTreeMap::insert`), and a weak
handle as the id of the referenced object (a weak handle holds no
strong count).  Service values in the map are object ids. -/

/-- A registry value: the pair of weak handles stored by `add_service`
(`Arc::downgrade(&s)`, `Arc::downgrade(&a)`), as object ids. -/
structure MapVal where
  svc : Nat
  any : Nat
  deriving Repr, DecidableEq

/-- The registry map contents: `BTreeMap<String, MapVal>` as an
association list with unique keys maintained by insert. -/
abbrev SMap := List (String × MapVal)

/-- `BTreeMap::insert`: overwrite the entry for `k` if present,
otherwise append. -/
def mapInsert (m : SMap) (k : String) (v : MapVal) : SMap :=
  match m with
  | [] => [(k, v)]
  | (k₁, v₁) :: rest =>
      if k₁ = k then (k, v) :: rest else (k₁, v₁) :: mapInsert rest k v

/-- `BTreeMap::get`: first (unique) entry for `k`. -/
def mapLookup (m : SMap) (k : String) : Option MapVal :=
  match m with
  | [] => none
  | (k₁, v₁) :: rest => if k₁ = k then some v₁ else mapLookup rest k

/-- The key list of the map. -/
def mapKeys (m : SMap) : List String := m.map Prod.fst

/-- `copy_service_map(out_map, in_map)`: iterate `in_map` inserting
every entry into `out_map` (later inserts overwrite). -/
def copy_service_map (out_map : SMap) (in_map : SMap) : SMap :=
  in_map.foldl (fun acc kv => mapInsert acc kv.1 kv.2) out_map

/-- `ServicesTrait for (T1, T2) :: service_map`: a fresh `BTreeMap`,
copy the first half, then copy the second half over it. -/
def tuple_service_map (m₁ m₂ : SMap) : SMap :=
  copy_service_map (copy_service_map [] m₁) m₂

theorem mapLookup_mapInsert (m : SMap) (k k₁ : String) (v : MapVal) :
    mapLookup (mapInsert m k v) k₁ =
      if k = k₁ then some v else mapLookup m k₁ := by
  induction m with
  | nil => simp [mapInsert, mapLookup]
  | cons hd tl ih =>
      obtain ⟨kh, vh⟩ := hd
      by_cases hk : kh = k
      · subst hk
        by_cases hk₁ : kh = k₁ <;> simp [mapInsert, mapLookup, hk₁]
      · by_cases hk₁ : kh = k₁
        · subst hk₁
          simp [mapInsert, mapLookup, hk, Ne.symm hk]
        · simp [mapInsert, mapLookup, hk, hk₁, ih]

theorem mem_mapKeys_iff_lookup (m : SMap) (k : String) :
    k ∈ mapKeys m ↔ (mapLookup m k).isSome := by
  induction m with
  | nil => simp [mapKeys, mapLookup]
  | cons hd tl ih =>
      obtain ⟨kh, vh⟩ := hd
      simp only [mapKeys, List.map_cons, List.mem_cons, mapLookup] at ih ⊢
      by_cases hk : kh = k
      · subst hk; simp
      · rw [if_neg hk]
        simp [Ne.symm hk, ih]

theorem mapKeys_mapInsert (m : SMap) (k : String) (v : MapVal) (k₁ : String) :
    k₁ ∈ mapKeys (mapInsert m k v) ↔ k₁ = k ∨ k₁ ∈ mapKeys m := by
  rw [mem_mapKeys_iff_lookup, mem_mapKeys_iff_lookup, mapLookup_mapInsert]
  by_cases hk : k = k₁
  · subst hk; simp
  · rw [if_neg hk]
    simp [Ne.symm hk]

theorem mapLookup_eq_none_of_not_mem (m : SMap) (k : String)
    (h : k ∉ mapKeys m) : mapLookup m k = none := by
  induction m with
  | nil => rfl
  | cons hd tl ih =>
      obtain ⟨kh, vh⟩ := hd
      simp only [mapKeys, List.map_cons, List.mem_cons] at h
      push_neg at h
      simp only [mapLookup, if_neg (Ne.symm h.1)]
      exact ih h.2

/-- Looking a key up after a copy: entries of the copied-in map win,
entries only in the accumulator persist.  Requires the copied-in map to
have unique keys (true of every `BTreeMap`). -/
theorem mapLookup_copy (out_map in_map : SMap) (k : String)
    (h : (mapKeys in_map).Nodup) :
    mapLookup (copy_service_map out_map in_map) k =
      ((mapLookup in_map k).or (mapLookup out_map k)) := by
  induction in_map generalizing out_map with
  | nil => simp [copy_service_map, mapLookup]
  | cons hd tl ih =>
      obtain ⟨kh, vh⟩ := hd
      simp only [mapKeys, List.map_cons, List.nodup_cons] at h
      have htl : (mapKeys tl).Nodup := h.2
      simp only [copy_service_map, List.foldl_cons] at ih ⊢
      rw [ih _ htl]
      by_cases hk : kh = k
      · subst hk
        have hnone : mapLookup tl kh = none :=
          mapLookup_eq_none_of_not_mem tl kh h.1
        simp [mapLookup, hnone, mapLookup_mapInsert]
      · simp [mapLookup, hk, mapLookup_mapInsert, Ne.symm hk]

/-! ### Reference counts (`Arc` / `Weak`)

Objects are identified by `Nat` ids; a heap assigns each id its strong
count.  `Arc::downgrade` yields the bare id without touching the strong
count; `Weak::upgrade` succeeds exactly when the strong count is
positive. -/

/-- Strong counts per object id. -/
def Heap := Nat → Nat

/-- `Arc::downgrade`: a weak handle is the id; no strong count change. -/
def downgrade (id : Nat) : Nat := id

/-- `Weak::upgrade`: succeeds iff the strong count is positive. -/
def upgrade (h : Heap) (w : Nat) : Option Nat :=
  if h w > 0 then some w else none

/-- Drop one strong handle to `id`. -/
def dropStrong (h : Heap) (id : Nat) : Heap :=
  fun i => if i = id then h i - 1 else h i

/-- Registry plus heap: the state threaded through the build phase. -/
structure RegState where
  heap : Heap
  next : Nat
  registry : SMap

/-- `add_service(map, s, a)` from `service/services.rs` and
`social-service/services.rs`: insert the pair
`(Arc::downgrade(&s), Arc::downgrade(&a))` under the service name.
Only downgraded handles are stored, so the heap is untouched. -/
def add_service (st : RegState) (name : String) (s a : Nat) : RegState :=
  { st with registry := mapInsert st.registry name ⟨downgrade s, downgrade a⟩ }

/-- One `build!(...)` arm: allocate the service object (strong count 1,
the strong handle is kept in the aggregate field) and register it. -/
def buildService (st : RegState) (name : String) : RegState × Nat :=
  let id := st.next
  let st₁ : RegState :=
    { st with heap := fun i => if i = id then 1 else st.heap i, next := id + 1 }
  (add_service st₁ name id id, id)

/-- The whole declared construction sequence; returns the final state
and the ids held strongly by the aggregate fields. -/
def buildAll (st : RegState) (names : List String) : RegState × List Nat :=
  match names with
  | [] => (st, [])
  | n :: rest =>
      let p := buildService st n
      let q := buildAll p.1 rest
      (q.1, p.2 :: q.2)

/-- `stop`: `interrupt` upgrades each live entry only for the duration
of its loop iteration and drops it again, and `Manager::stop` joins the
workers; no strong handle is retained, so the retained heap is
unchanged. -/
def stopAggregate (st : RegState) : RegState := st

/-- Dropping the aggregate releases the one strong handle each field
holds. -/
def dropAggregate (h : Heap) (fields : List Nat) : Heap :=
  fields.foldl dropStrong h

/-- The empty state at the top of `start`: fresh registry, no objects. -/
def initState : RegState := ⟨fun _ => 0, 0, []⟩

/-- build → stop → drop the last strong reference to the aggregate. -/
def lifecycleEnd (names : List String) : RegState :=
  let p := buildAll initState names
  let st := stopAggregate p.1
  { st with heap := dropAggregate st.heap p.2 }

theorem dropAggregate_pointwise (ids : List Nat) (h : Heap) (w : Nat)
    (hnd : ids.Nodup) :
    dropAggregate h ids w = if w ∈ ids then h w - 1 else h w := by
  induction ids generalizing h with
  | nil => simp [dropAggregate]
  | cons i rest ih =>
      simp only [List.nodup_cons] at hnd
      simp only [dropAggregate, List.foldl_cons] at ih ⊢
      rw [ih _ hnd.2]
      by_cases hw : w = i
      · subst hw
        simp [dropStrong, hnd.1]
      · simp [dropStrong, hw, List.mem_cons]

theorem buildAll_ids (names : List String) (st : RegState) :
    (buildAll st names).2 = List.range' st.next names.length ∧
    (buildAll st names).1.next = st.next + names.length := by
  induction names generalizing st with
  | nil => simp [buildAll]
  | cons n rest ih =>
      simp only [buildAll, buildService, add_service, List.length_cons]
      obtain ⟨h₁, h₂⟩ := ih
        { heap := fun i => if i = st.next then 1 else st.heap i,
          next := st.next + 1,
          registry := mapInsert st.registry n ⟨downgrade st.next, downgrade st.next⟩ }
      refine ⟨?_, ?_⟩
      · rw [List.range'_succ, h₁]
      · rw [h₂]
        show st.next + 1 + rest.length = st.next + (rest.length + 1)
        omega

theorem buildAll_heap (names : List String) (st : RegState) (w : Nat) :
    (buildAll st names).1.heap w =
      if w ∈ (buildAll st names).2 then 1 else st.heap w := by
  induction names generalizing st with
  | nil => simp [buildAll]
  | cons n rest ih =>
      have hids := buildAll_ids rest
        { heap := fun i => if i = st.next then 1 else st.heap i,
          next := st.next + 1,
          registry := mapInsert st.registry n ⟨downgrade st.next, downgrade st.next⟩ }
      simp only [buildAll, buildService, add_service] at ih ⊢
      rw [ih]
      by_cases hw : w ∈ (buildAll
        { heap := fun i => if i = st.next then 1 else st.heap i,
          next := st.next + 1,
          registry := mapInsert st.registry n ⟨downgrade st.next, downgrade st.next⟩ }
        rest).2
      · simp [hw, List.mem_cons]
      · have hwne : w ≠ st.next ∨ w = st.next := by tauto
        simp only [hw, if_false, List.mem_cons]
        by_cases hw2 : w = st.next
        · simp [hw2]
        · simp [hw2, hw]

theorem buildAll_registry (names : List String) (st : RegState) (k : String)
    (v : MapVal) :
    mapLookup (buildAll st names).1.registry k = some v →
      v.svc ∈ (buildAll st names).2 ∧ v.any ∈ (buildAll st names).2 ∨
        mapLookup st.registry k = some v := by
  induction names generalizing st with
  | nil => simp [buildAll]
  | cons n rest ih =>
      simp only [buildAll, buildService, add_service]
      intro hlk
      rcases ih _ hlk with h | h
      · exact Or.inl ⟨List.mem_cons_of_mem _ h.1, List.mem_cons_of_mem _ h.2⟩
      · rw [mapLookup_mapInsert] at h
        by_cases hk : n = k
        · simp only [hk, if_pos rfl] at h
          obtain rfl : (⟨downgrade st.next, downgrade st.next⟩ : MapVal) = v :=
            Option.some.inj h
          exact Or.inl ⟨List.mem_cons_self _ _, List.mem_cons_self _ _⟩
        · rw [if_neg hk] at h
          exact Or.inr h

theorem lifecycleEnd_heap (names : List String) (w : Nat) :
    (lifecycleEnd names).heap w = 0 := by
  have hids := buildAll_ids names initState
  have hnd : (buildAll initState names).2.Nodup := by
    rw [hids.1]; exact List.nodup_range' _ _
  have hheap := buildAll_heap names initState w
  show dropAggregate (buildAll initState names).1.heap
    (buildAll initState names).2 w = 0
  rw [dropAggregate_pointwise _ _ _ hnd, hheap]
  by_cases hw : w ∈ (buildAll initState names).2
  · simp [hw]
  · simp only [hw, if_false]
    rfl

theorem lifecycleEnd_registry (names : List String) :
    (lifecycleEnd names).registry = (buildAll initState names).1.registry := rfl

/-! ### Registry snapshot (`services()`) -/

/-- `services()` from `service-core/services.rs` (and the identical
copies in `service/services.rs`, `social-service/services.rs`): read
the map, upgrade the `Service` weak handle of every value, drop the
entries that fail to upgrade, and collect the rest into a `Vec` — the
point-in-time snapshot the returned stream iterates. -/
def servicesSnapshot (h : Heap) (m : SMap) : List Nat :=
  m.filterMap (fun kv => upgrade h kv.2.svc)

theorem mem_servicesSnapshot (h : Heap) (m : SMap) (id : Nat) :
    id ∈ servicesSnapshot h m ↔ ∃ kv ∈ m, kv.2.svc = id ∧ h id > 0 := by
  simp only [servicesSnapshot, List.mem_filterMap, upgrade]
  constructor
  · rintro ⟨kv, hkv, hup⟩
    by_cases hpos : h kv.2.svc > 0
    · rw [if_pos hpos] at hup
      obtain rfl := Option.some.inj hup
      exact ⟨kv, hkv, rfl, hpos⟩
    · rw [if_neg hpos] at hup
      exact absurd hup (by simp)
  · rintro ⟨kv, hkv, rfl, hpos⟩
    exact ⟨kv, hkv, if_pos hpos⟩

/-! ### Errors, unwinding and the boundary entry points -/

/-- Error values of the framework (`conduwuit::Error` as used here). -/
inductive Err where
  | dbOpen (msg : String)
  | buildFailed (svc : String)
  | missingDep (name : String)
  | worker (msg : String)
  | fromPanic (payload : String)
  deriving Repr, DecidableEq

/-- Driving a future to completion either resolves to its output or
raises an unwind carrying a payload. -/
inductive FutOutcome (α : Type) where
  | resolved (a : α)
  | panicked (payload : String)
  deriving Repr, DecidableEq

/-- `catch_unwind` on a future: an unwind of the inner future becomes a
normal resolution to `Err(payload)`; the adapter itself never unwinds. -/
def catch_unwind {α : Type} (o : FutOutcome α) : FutOutcome (Except String α) :=
  match o with
  | .resolved a => .resolved (.ok a)
  | .panicked p => .resolved (.error p)

/-- `map_err` on the output of the future. -/
def fut_map_err {α β γ : Type} (f : β → γ) (o : FutOutcome (Except β α)) :
    FutOutcome (Except γ α) :=
  match o with
  | .resolved (.ok a) => .resolved (.ok a)
  | .resolved (.error e) => .resolved (.error (f e))
  | .panicked p => .panicked p

/-- `unwrap_or_else(Err)` on a future of `Result<Result<_,E>,E>`. -/
def fut_unwrap_or_else_err {α : Type} (o : FutOutcome (Except Err (Except Err α))) :
    FutOutcome (Except Err α) :=
  match o with
  | .resolved (.ok r) => .resolved r
  | .resolved (.error e) => .resolved (.error e)
  | .panicked p => .panicked p

/-- `Error::from_panic`. -/
def fromPanic (payload : String) : Err := .fromPanic payload

/-- The adapter chain used by the exported `start`, `stop` and `run` in
`router/mod.rs`: `AssertUnwindSafe(inner).catch_unwind()
.map_err(Error::from_panic).unwrap_or_else(Err).boxed()`. -/
def panicBoundary {α : Type} (inner : FutOutcome (Except Err α)) :
    FutOutcome (Except Err α) :=
  fut_unwrap_or_else_err (fut_map_err fromPanic (catch_unwind inner))

/-- Exported `start` (`router/mod.rs`), over the outcome of
`run::start`; the build result handle is an object id. -/
def start_entry (inner : FutOutcome (Except Err Nat)) : FutOutcome (Except Err Nat) :=
  panicBoundary inner

/-- Exported `stop` (`router/mod.rs`), over the outcome of `run::stop`. -/
def stop_entry (inner : FutOutcome (Except Err Unit)) : FutOutcome (Except Err Unit) :=
  panicBoundary inner

/-- Exported `run` (`router/mod.rs`), over the outcome of `run::run`. -/
def run_entry (inner : FutOutcome (Except Err Unit)) : FutOutcome (Except Err Unit) :=
  panicBoundary inner

/-! ### Tuple composition of two bundles (`(T1, T2)`) -/

/-- Observable steps of the tuple lifecycle; `side` is 1 for the first
element, 2 for the second. -/
inductive TupleEv where
  | startBegin (side : Nat)
  | startEnd (side : Nat) (ok : Bool)
  | stopBegin (side : Nat)
  | stopEnd (side : Nat)
  | pollBegin (side : Nat)
  | pollEnd (side : Nat) (ok : Bool)
  deriving Repr, DecidableEq

/-- The side an event belongs to. -/
def TupleEv.side : TupleEv → Nat
  | .startBegin s | .startEnd s _ | .stopBegin s | .stopEnd s
  | .pollBegin s | .pollEnd s _ => s

/-- The behaviour of one half of a tuple, abstracted: what its `start`
returns for a given server handle, and what its `poll` returns. -/
structure Half where
  startR : Nat → Except Err Nat
  pollR : Except Err Unit

/-- `ServicesTrait for (T1, T2) :: start`:
`Ok((T1::start(server.clone()).await?, T2::start(server.clone()).await?))` —
the first half runs to completion with the (cloned) server handle; on
its error the second half is never invoked. -/
def tuple_start (h₁ h₂ : Half) (server : Nat) :
    Except Err (Nat × Nat) × List TupleEv :=
  match h₁.startR server with
  | .error e => (.error e, [.startBegin 1, .startEnd 1 false])
  | .ok v₁ =>
      match h₂.startR server with
      | .error e =>
          (.error e, [.startBegin 1, .startEnd 1 true, .startBegin 2, .startEnd 2 false])
      | .ok v₂ =>
          (.ok (v₁, v₂), [.startBegin 1, .startEnd 1 true, .startBegin 2, .startEnd 2 true])

/-- `ServicesTrait for (T1, T2) :: stop`: `self.0.stop().await;
self.1.stop().await;` — unconditional, first then second. -/
def tuple_stop : List TupleEv :=
  [.stopBegin 1, .stopEnd 1, .stopBegin 2, .stopEnd 2]

/-- `ServicesTrait for (T1, T2) :: poll`: `self.0.poll().await?;
self.1.poll().await` — on an error of the first half the second is never
polled. -/
def tuple_poll (h₁ h₂ : Half) : Except Err Unit × List TupleEv :=
  match h₁.pollR with
  | .error e => (.error e, [.pollBegin 1, .pollEnd 1 false])
  | .ok _ =>
      match h₂.pollR with
      | .error e =>
          (.error e, [.pollBegin 1, .pollEnd 1 true, .pollBegin 2, .pollEnd 2 false])
      | .ok _ =>
          (.ok (), [.pollBegin 1, .pollEnd 1 true, .pollBegin 2, .pollEnd 2 true])

/-- A poll computation: its result and its emitted trace. -/
abbrev PollComp := Except Err Unit × List TupleEv

/-- The poll of a single bundle, as a traced computation (the leaf of a
nesting); `label` identifies the bundle. -/
def leafPoll (label : Nat) (r : Except Err Unit) : PollComp :=
  (r, [.pollBegin label, .pollEnd label (r matches .ok _)])

/-- The generic pair `poll` over already-traced computations:
run the first; on error stop (`?`), otherwise run the second. -/
def pairPoll (p₁ p₂ : PollComp) : PollComp :=
  match p₁ with
  | (.error e, t) => (.error e, t)
  | (.ok _, t) => (p₂.1, t ++ p₂.2)

/-! ### The build phase of `ServicesTrait::start` -/

/-- Observable steps of an aggregate `start`. -/
inductive StartEv where
  | dbOpened
  | serviceBuilt (name : String)
  | managerCreated
  | workerSpawned (n : Nat)
  deriving Repr, DecidableEq

/-- Modelled from the spec: `Manager` (`manager.rs` is not under
`src/`).  `Manager::new(&built)` is called only on the fully assembled
aggregate, and `Manager::start()` spawns one worker task per service
exposing a worker. -/
def managerStart (workerCount : Nat) : List StartEv :=
  .managerCreated :: (List.range workerCount).map .workerSpawned

/-- The `build!` sequence of `Services::start`: each arm runs the
next `build(Args)` and registers the result; the first error
aborts the sequence (`?` inside the arm). -/
def buildPhase : List (String × Except Err Unit) → Except Err Unit × List StartEv
  | [] => (.ok (), [])
  | (n, r) :: rest =>
      match r with
      | .error e => (.error e, [])
      | .ok _ =>
          let q := buildPhase rest
          (q.1, .serviceBuilt n :: q.2)

/-- `ServicesTrait::start` for a concrete aggregate
(`service/services.rs`, `social-service/services.rs`): open the
database (`?`), run the `build!` sequence, assemble the aggregate, run
the post-assembly steps (migrations — absent for the plain service
aggregate), then create the `Manager` and spawn the workers.  `dbOpen`,
`builds` and `migrations` abstract the outcomes of the respective
fallible collaborator calls. -/
def startAggregate (dbOpen : Except Err Unit)
    (builds : List (String × Except Err Unit)) (migrations : Except Err Unit)
    (workerCount : Nat) : Except Err Unit × List StartEv :=
  match dbOpen with
  | .error e => (.error e, [])
  | .ok _ =>
      match buildPhase builds with
      | (.error e, tr) => (.error e, .dbOpened :: tr)
      | (.ok _, tr) =>
          match migrations with
          | .error e => (.error e, .dbOpened :: tr)
          | .ok _ => (.ok (), .dbOpened :: tr ++ managerStart workerCount)

/-- The first error among the service builds, in declared order. -/
def firstBuildErr : List (String × Except Err Unit) → Option Err
  | [] => none
  | (_, .error e) :: _ => some e
  | (_, .ok _) :: rest => firstBuildErr rest

/-! ### Dependency resolution (`Args::depend`) and build ordering -/

/-- Modelled from the spec: `Args::depend::<T>(name)`
(`service/service.rs` is not under `src/`) resolves a `Dep<T>` by
upgrading the weak Registry entry for `name` and downcasting; a
missing entry is fatal to the build, propagated as a build error.  The
in-progress Registry is abstracted to its inserted names. -/
def depend (registry : List String) (name : String) : Except Err Unit :=
  if name ∈ registry then .ok () else .error (.missingDep name)

/-- The `build(Args)` of one service: every `depend` call it makes must
resolve against the in-progress Registry. -/
def buildWithDeps (registry : List String) : List String → Except Err Unit
  | [] => .ok ()
  | d :: rest =>
      match depend registry d with
      | .error e => .error e
      | .ok _ => buildWithDeps registry rest

/-- The declared construction sequence: build each service in order,
inserting it into the Registry immediately after construction. -/
def buildSeqAux (registry : List String) :
    List (String × List String) → Except Err (List String)
  | [] => .ok registry
  | (n, deps) :: rest =>
      match buildWithDeps registry deps with
      | .error e => .error e
      | .ok _ => buildSeqAux (registry ++ [n]) rest

/-- Every `depend` call resolves to a previously inserted entry. -/
def depsResolved (registry : List String) : List (String × List String) → Prop
  | [] => True
  | (n, deps) :: rest =>
      (∀ d ∈ deps, d ∈ registry) ∧ depsResolved (registry ++ [n]) rest

instance (registry : List String) (svcs : List (String × List String)) :
    Decidable (depsResolved registry svcs) := by
  induction svcs generalizing registry with
  | nil => exact .isTrue trivial
  | cons hd tl ih =>
      obtain ⟨n, deps⟩ := hd
      have := ih (registry ++ [n])
      unfold depsResolved
      infer_instance

/-- The declared construction sequence of the social-service aggregate:
the field order of the struct literal in `Services::start`
(`social-service/services.rs`), with the `depend` calls of the service
sources present under `src/` (resolver, federation, updates); the dep
lists of the services whose sources are not under `src/` are a
parameter. -/
def socialBuildOrder (extraDeps : String → List String) :
    List (String × List String) :=
  [("account_data", extraDeps "account_data"),
   ("admin", extraDeps "admin"),
   ("appservice", extraDeps "appservice"),
   ("resolver", ["client"]),
   ("client", extraDeps "client"),
   ("config", extraDeps "config"),
   ("emergency", extraDeps "emergency"),
   ("globals", extraDeps "globals"),
   ("key_backups", extraDeps "key_backups"),
   ("media", extraDeps "media"),
   ("presence", extraDeps "presence"),
   ("pusher", extraDeps "pusher"),
   ("rooms::alias", extraDeps "rooms::alias"),
   ("rooms::auth_chain", extraDeps "rooms::auth_chain"),
   ("rooms::directory", extraDeps "rooms::directory"),
   ("rooms::event_handler", extraDeps "rooms::event_handler"),
   ("rooms::lazy_loading", extraDeps "rooms::lazy_loading"),
   ("rooms::metadata", extraDeps "rooms::metadata"),
   ("rooms::outlier", extraDeps "rooms::outlier"),
   ("rooms::pdu_metadata", extraDeps "rooms::pdu_metadata"),
   ("rooms::read_receipt", extraDeps "rooms::read_receipt"),
   ("rooms::search", extraDeps "rooms::search"),
   ("rooms::short", extraDeps "rooms::short"),
   ("rooms::spaces", extraDeps "rooms::spaces"),
   ("rooms::state", extraDeps "rooms::state"),
   ("rooms::state_accessor", extraDeps "rooms::state_accessor"),
   ("rooms::state_cache", extraDeps "rooms::state_cache"),
   ("rooms::state_compressor", extraDeps "rooms::state_compressor"),
   ("rooms::threads", extraDeps "rooms::threads"),
   ("rooms::timeline", extraDeps "rooms::timeline"),
   ("rooms::typing", extraDeps "rooms::typing"),
   ("rooms::user", extraDeps "rooms::user"),
   ("federation", ["client", "resolver", "server_keys"]),
   ("sending", extraDeps "sending"),
   ("server_keys", extraDeps "server_keys"),
   ("sync", extraDeps "sync"),
   ("transaction_ids", extraDeps "transaction_ids"),
   ("uiaa", extraDeps "uiaa"),
   ("updates", ["globals", "admin", "client"]),
   ("users", extraDeps "users")]

/-! ### `check_refs` -/

/-- Diagnostic log lines emitted during shutdown. -/
inductive LogEv where
  | danglingRefs (count : Nat) (bundle : String)
  deriving Repr, DecidableEq

/-- `ServicesTrait for Arc<T> :: check_refs` (`service-core/services.rs`):
consume the handle; `Arc::try_unwrap` succeeds iff it was the only
strong handle, and on failure `debug_error!` logs the strong count and
the bundle name.  The result is the emitted log; the `.ok` constructor
records that the call returns normally (no unwind). -/
def check_refs_arc (strong : Nat) (bundle : String) : Except String (List LogEv) :=
  if strong = 1 then .ok [] else .ok [.danglingRefs strong bundle]

/-- `ServicesTrait for Services :: check_refs`
(`social-service/services.rs` line 221): a no-op body. -/
def check_refs_social : Except String (List LogEv) := .ok []

/-! ### Router composition lattice (`router/services.rs`) -/

/-- A node of the `RouterServices` composition lattice: a concrete
aggregate type (implements `build`, inherits the default `arc_build`),
an `Arc`-wrapped one, or a tuple. -/
inductive RNode where
  | leaf
  | arc (t : RNode)
  | tup (t₁ t₂ : RNode)
  deriving Repr, DecidableEq

/-- `RouterServices::build`: a concrete implementor attaches its routes
and returns normally; the `Arc<T>` and `(T1, T2)` impls unwind
unconditionally. -/
def routerBuild : RNode → Except String Unit
  | .leaf => .ok ()
  | .arc _ => .error "build should never be called on an Arc"
  | .tup _ _ => .error "build should never be called on a tuple"

/-- `RouterServices::arc_build`: the default impl unwinds; the
`Arc<T>` impl creates the state and guard and calls `T::build`; the
`(T1, T2)` impl merges the two halves and pairs their guards. -/
def arc_build : RNode → Except String Unit
  | .leaf => .error "arc_build should never be called on a non-Arc or non-Arc-tuple"
  | .arc t =>
      match routerBuild t with
      | .error p => .error p
      | .ok _ => .ok ()
  | .tup t₁ t₂ =>
      match arc_build t₁ with
      | .error p => .error p
      | .ok _ =>
          match arc_build t₂ with
          | .error p => .error p
          | .ok _ => .ok ()

/-- The shapes for which a (router, guard) pair is obtainable: an `Arc`
around a concrete aggregate, or a tuple of such. -/
def arcShaped : RNode → Bool
  | .arc .leaf => true
  | .tup t₁ t₂ => arcShaped t₁ && arcShaped t₂
  | _ => false

/-- Whether an `Except` call returned normally. -/
def exceptOk {ε α : Type} : Except ε α → Bool
  | .ok _ => true
  | .error _ => false

theorem panicBoundary_resolves {α : Type} (o : FutOutcome (Except Err α)) :
    (∀ p, panicBoundary o ≠ .panicked p) ∧
    (∀ p, o = .panicked p → panicBoundary o = .resolved (.error (fromPanic p))) ∧
    (∀ r, o = .resolved r → panicBoundary o = .resolved r) := by
  rcases o with r | p
  · rcases r with a | e <;>
      simp [panicBoundary, catch_unwind, fut_map_err, fut_unwrap_or_else_err]
  · simp [panicBoundary, catch_unwind, fut_map_err, fut_unwrap_or_else_err]

/-- C5: the exported top-level `start`, `stop` and `run` of
`router/mod.rs` never let an unwind cross the module boundary: for
every outcome of the inner future, the returned future resolves to an
ordinary `Result`, and an inner unwind is converted into an `Err`
value via `Error::from_panic`. -/
theorem C5_entry_points_catch_panics (s : FutOutcome (Except Err Nat))
    (t u : FutOutcome (Except Err Unit)) :
    (∀ p, start_entry s ≠ .panicked p) ∧
    (∀ p, stop_entry t ≠ .panicked p) ∧
    (∀ p, run_entry u ≠ .panicked p) ∧
    (∀ p, s = .panicked p → start_entry s = .resolved (.error (fromPanic p))) ∧
    (∀ r, s = .resolved r → start_entry s = .resolved r) ∧
    (∀ p, t = .panicked p → stop_entry t = .resolved (.error (fromPanic p))) ∧
    (∀ r, t = .resolved r → stop_entry t = .resolved r) ∧
    (∀ p, u = .panicked p → run_entry u = .resolved (.error (fromPanic p))) ∧
    (∀ r, u = .resolved r → run_entry u = .resolved r) := by
  obtain ⟨hs₁, hs₂, hs₃⟩ := panicBoundary_resolves s
  obtain ⟨ht₁, ht₂, ht₃⟩ := panicBoundary_resolves t
  obtain ⟨hu₁, hu₂, hu₃⟩ := panicBoundary_resolves u
  exact ⟨hs₁, ht₁, hu₁, hs₂, hs₃, ht₂, ht₃, hu₂, hu₃⟩

/-- Closed instance of C5 at concrete inner outcomes. -/
theorem C5_entry_points_catch_panics_witness :
    start_entry (.panicked "boom") = .resolved (.error (fromPanic "boom")) ∧
    stop_entry (.resolved (.ok ())) = .resolved (.ok ()) ∧
    run_entry (.panicked "p") = .resolved (.error (fromPanic "p")) := by
  obtain ⟨-, -, -, h₄, -, -, h₇, h₈, -⟩ :=
    C5_entry_points_catch_panics (.panicked "boom") (.resolved (.ok ())) (.panicked "p")
  exact ⟨h₄ "boom" rfl, h₇ (.ok ()) rfl, h₈ "p" rfl⟩

/-- C10: in the router composition lattice of `router/services.rs`,
`RouterServices::build` unwinds unconditionally on `Arc<T>` and on
`(T1, T2)`, the default `arc_build` (the one a concrete implementor
inherits) unwinds unconditionally, and `arc_build` returns a
(router, guard) pair exactly on an `Arc`-wrapped aggregate or a tuple
of such shapes. -/
theorem C10_router_lattice_panics :
    (∀ t, routerBuild (.arc t) = .error "build should never be called on an Arc") ∧
    (∀ t₁ t₂, routerBuild (.tup t₁ t₂) =
        .error "build should never be called on a tuple") ∧
    arc_build .leaf =
      .error "arc_build should never be called on a non-Arc or non-Arc-tuple" ∧
    (∀ t, exceptOk (arc_build t) = arcShaped t) := by
  refine ⟨fun _ => rfl, fun _ _ => rfl, rfl, ?_⟩
  intro t
  induction t with
  | leaf => rfl
  | arc t _ => cases t <;> rfl
  | tup t₁ t₂ ih₁ ih₂ =>
      show exceptOk (arc_build (.tup t₁ t₂)) = (arcShaped t₁ && arcShaped t₂)
      rw [← ih₁, ← ih₂]
      rcases h₁ : arc_build t₁ with p₁ | v₁ <;>
        rcases h₂ : arc_build t₂ with p₂ | v₂ <;>
          simp [arc_build, h₁, h₂, exceptOk]

/-- Closed instance of C10 at concrete lattice shapes. -/
theorem C10_router_lattice_panics_witness :
    routerBuild (.arc .leaf) = .error "build should never be called on an Arc" ∧
    routerBuild (.tup .leaf .leaf) = .error "build should never be called on a tuple" ∧
    exceptOk (arc_build (.tup (.arc .leaf) (.arc .leaf))) =
      arcShaped (.tup (.arc .leaf) (.arc .leaf)) := by
  obtain ⟨h₁, h₂, -, h₄⟩ := C10_router_lattice_panics
  exact ⟨h₁ .leaf, h₂ .leaf .leaf, h₄ _⟩

/-- C6: for a tuple composition `(T1, T2)` (`service-core/services.rs`
and `service/services.rs`), `start` runs the first half to completion
with the cloned server handle before invoking the second half, `stop`
runs the stop of the first half to completion before that of the second, `poll`
polls the first half before the second, the trace is always side 1
followed by side 2 (no fan-out), and when the `start` or `poll` of the
first half errors the second half is never invoked. -/
theorem C6_tuple_first_then_second (h₁ h₂ : Half) (server : Nat) :
    (∀ e, h₁.startR server = .error e →
        tuple_start h₁ h₂ server = (.error e, [.startBegin 1, .startEnd 1 false])) ∧
    (∀ v₁ e, h₁.startR server = .ok v₁ → h₂.startR server = .error e →
        tuple_start h₁ h₂ server =
          (.error e,
            [.startBegin 1, .startEnd 1 true, .startBegin 2, .startEnd 2 false])) ∧
    (∀ v₁ v₂, h₁.startR server = .ok v₁ → h₂.startR server = .ok v₂ →
        tuple_start h₁ h₂ server =
          (.ok (v₁, v₂),
            [.startBegin 1, .startEnd 1 true, .startBegin 2, .startEnd 2 true])) ∧
    tuple_stop = [.stopBegin 1, .stopEnd 1, .stopBegin 2, .stopEnd 2] ∧
    (∀ e, h₁.pollR = .error e →
        tuple_poll h₁ h₂ = (.error e, [.pollBegin 1, .pollEnd 1 false])) ∧
    ((tuple_start h₁ h₂ server).2.map TupleEv.side).Sorted (· ≤ ·) ∧
    ((tuple_poll h₁ h₂).2.map TupleEv.side).Sorted (· ≤ ·) ∧
    (tuple_stop.map TupleEv.side).Sorted (· ≤ ·) := by
  refine ⟨?_, ?_, ?_, rfl, ?_, ?_, ?_, by decide⟩
  · intro e he; simp [tuple_start, he]
  · intro v₁ e hv he; simp [tuple_start, hv, he]
  · intro v₁ v₂ hv₁ hv₂; simp [tuple_start, hv₁, hv₂]
  · intro e he; simp [tuple_poll, he]
  · rcases hs₁ : h₁.startR server with e₁ | v₁
    · simp only [tuple_start, hs₁]; decide
    · rcases hs₂ : h₂.startR server with e₂ | v₂ <;>
        (simp only [tuple_start, hs₁, hs₂]; decide)
  · rcases hp₁ : h₁.pollR with e₁ | v₁
    · simp only [tuple_poll, hp₁]; decide
    · rcases hp₂ : h₂.pollR with e₂ | v₂ <;>
        (simp only [tuple_poll, hp₁, hp₂]; decide)

/-- Closed instance of C6 at concrete halves. -/
theorem C6_tuple_first_then_second_witness :
    tuple_start ⟨fun _ => .ok 10, .ok ()⟩ ⟨fun _ => .error (.worker "w"), .ok ()⟩ 7 =
      (.error (.worker "w"),
        [.startBegin 1, .startEnd 1 true, .startBegin 2, .startEnd 2 false]) ∧
    tuple_poll ⟨fun _ => .ok 10, .error (.worker "e")⟩ ⟨fun _ => .ok 11, .ok ()⟩ =
      (.error (.worker "e"), [.pollBegin 1, .pollEnd 1 false]) := by
  obtain ⟨-, h₂, -, -, h₅, -, -, -⟩ :=
    C6_tuple_first_then_second ⟨fun _ => .ok 10, .ok ()⟩
      ⟨fun _ => .error (.worker "w"), .ok ()⟩ 7
  obtain ⟨-, -, -, -, h₅b, -, -, -⟩ :=
    C6_tuple_first_then_second ⟨fun _ => .ok 10, .error (.worker "e")⟩
      ⟨fun _ => .ok 11, .ok ()⟩ 7
  exact ⟨h₂ 10 (.worker "w") rfl rfl, h₅b (.worker "e") rfl⟩

/-- C4: `check_refs` consumes the aggregate handle and never unwinds;
for the `Arc<T>` impl of `service-core/services.rs` it emits the
dangling-count/bundle diagnostic exactly when a clone of the strong
handle beyond the one consumed remains, and in the round-trip where the
consumed handle is the last strong reference no leak line is logged;
the concrete social-service impl returns normally with no log. -/
theorem C4_check_refs_leak_detector (strong : Nat) (bundle : String)
    (hlive : 1 ≤ strong) :
    (check_refs_arc strong bundle = .ok [] ↔ strong = 1) ∧
    (1 < strong →
        check_refs_arc strong bundle = .ok [.danglingRefs strong bundle]) ∧
    (∃ log, check_refs_arc strong bundle = .ok log) ∧
    check_refs_social = .ok [] := by
  by_cases h : strong = 1
  · subst h
    exact ⟨by simp [check_refs_arc], fun hlt => absurd hlt (by omega),
      ⟨[], by simp [check_refs_arc]⟩, rfl⟩
  · refine ⟨?_, fun _ => by simp [check_refs_arc, h],
      ⟨[.danglingRefs strong bundle], by simp [check_refs_arc, h]⟩, rfl⟩
    simp [check_refs_arc, h]

/-- Closed instance of C4: the round-trip with a sole strong handle
emits no leak log; two strong handles emit the diagnostic. -/
theorem C4_check_refs_leak_detector_witness :
    (1 ≤ 1 ∧ check_refs_arc 1 "SocialServices" = .ok []) ∧
    (1 ≤ 2 ∧
      check_refs_arc 2 "SocialServices" = .ok [.danglingRefs 2 "SocialServices"]) := by
  refine ⟨⟨le_refl 1, ?_⟩, ⟨by omega, ?_⟩⟩
  · exact (C4_check_refs_leak_detector 1 "SocialServices" (le_refl 1)).1.mpr rfl
  · exact (C4_check_refs_leak_detector 2 "SocialServices" (by omega)).2.1 (by omega)

theorem buildPhase_result (builds : List (String × Except Err Unit)) :
    (∀ e, firstBuildErr builds = some e → (buildPhase builds).1 = .error e) ∧
    (firstBuildErr builds = none → (buildPhase builds).1 = .ok ()) := by
  induction builds with
  | nil =>
      refine ⟨?_, fun _ => rfl⟩
      intro e h
      cases h
  | cons hd tl ih =>
      obtain ⟨n, r⟩ := hd
      rcases r with e₀ | v₀
      · constructor
        · intro e h
          simp only [firstBuildErr, Option.some.injEq] at h
          simp [buildPhase, h]
        · intro h
          simp [firstBuildErr] at h
      · constructor
        · intro e h
          simp only [firstBuildErr] at h
          simpa [buildPhase] using ih.1 e h
        · intro h
          simp only [firstBuildErr] at h
          simpa [buildPhase] using ih.2 h

theorem buildPhase_events (builds : List (String × Except Err Unit)) :
    ∀ ev ∈ (buildPhase builds).2, ∃ n, ev = .serviceBuilt n := by
  induction builds with
  | nil => intro ev h; cases h
  | cons hd tl ih =>
      obtain ⟨n, r⟩ := hd
      rcases r with e₀ | v₀
      · intro ev h; cases h
      · intro ev h
        simp only [buildPhase, List.mem_cons] at h
        rcases h with rfl | h
        · exact ⟨n, rfl⟩
        · exact ih ev h

/-- C2: if opening the database or the `build(Args)` of any single service
errors during `ServicesTrait::start`, then `start` returns that error
(the first one hit), the `Manager` is never created and no worker task
is ever spawned: the error result carries no aggregate, so the
incompletely built one is dropped. -/
theorem C2_build_phase_atomic (dbOpen : Except Err Unit)
    (builds : List (String × Except Err Unit)) (migrations : Except Err Unit)
    (workerCount : Nat)
    (hfail : (∃ e, dbOpen = .error e) ∨ (∃ e, firstBuildErr builds = some e)) :
    (∀ e, dbOpen = .error e →
        startAggregate dbOpen builds migrations workerCount = (.error e, [])) ∧
    (∀ e, dbOpen = .ok () → firstBuildErr builds = some e →
        (startAggregate dbOpen builds migrations workerCount).1 = .error e) ∧
    .managerCreated ∉ (startAggregate dbOpen builds migrations workerCount).2 ∧
    (∀ n, .workerSpawned n ∉ (startAggregate dbOpen builds migrations workerCount).2) := by
  have hdb : ∀ e, dbOpen = .error e →
      startAggregate dbOpen builds migrations workerCount = (.error e, []) := by
    intro e he; simp [startAggregate, he]
  have hbuild : ∀ e, dbOpen = .ok () → firstBuildErr builds = some e →
      (startAggregate dbOpen builds migrations workerCount).1 = .error e := by
    intro e hdbok hb
    have h₁ := (buildPhase_result builds).1 e hb
    rcases hq : buildPhase builds with ⟨res, tr⟩
    rw [hq] at h₁
    simp only at h₁
    subst h₁
    simp [startAggregate, hdbok, hq]
  have hstart : ∀ ev : StartEv, (∀ n, ev ≠ .serviceBuilt n) → ev ≠ .dbOpened →
      ev ∉ (startAggregate dbOpen builds migrations workerCount).2 := by
    intro ev hnb hnd
    rcases hfail with ⟨e, he⟩ | ⟨e, he⟩
    · rw [hdb e he]; simp
    · rcases hdbv : dbOpen with e₀ | v₀
      · have := hdb e₀ hdbv
        rw [hdbv] at this
        rw [this]
        simp
      · have h₁ := (buildPhase_result builds).1 e he
        rcases hq : buildPhase builds with ⟨res, tr⟩
        rw [hq] at h₁
        simp only at h₁
        subst h₁
        simp only [startAggregate, hdbv, hq, List.mem_cons]
        rintro (h | h)
        · exact hnd h
        · obtain ⟨m, hm⟩ := buildPhase_events builds ev (by rw [hq]; exact h)
          exact hnb m hm
  exact ⟨hdb, hbuild,
    hstart .managerCreated (fun n h => by cases h) (by intro h; cases h),
    fun n => hstart (.workerSpawned n) (fun m h => by cases h) (by intro h; cases h)⟩

/-- Closed instance of C2: the third build fails, `start` returns that
error and the trace holds no manager or worker event. -/
theorem C2_build_phase_atomic_witness :
    ((∃ e, (Except.ok () : Except Err Unit) = .error e) ∨
      (∃ e, firstBuildErr
        [("account_data", .ok ()), ("admin", .ok ()),
         ("appservice", .error (.buildFailed "appservice"))] = some e)) ∧
    (startAggregate (.ok ())
      [("account_data", .ok ()), ("admin", .ok ()),
       ("appservice", .error (.buildFailed "appservice"))] (.ok ()) 5).1 =
      .error (.buildFailed "appservice") ∧
    .managerCreated ∉ (startAggregate (.ok ())
      [("account_data", .ok ()), ("admin", .ok ()),
       ("appservice", .error (.buildFailed "appservice"))] (.ok ()) 5).2 := by
  have hf : (∃ e, (Except.ok () : Except Err Unit) = .error e) ∨
      (∃ e, firstBuildErr
        [("account_data", .ok ()), ("admin", .ok ()),
         ("appservice", .error (.buildFailed "appservice"))] = some e) :=
    Or.inr ⟨.buildFailed "appservice", by decide⟩
  obtain ⟨-, h₂, h₃, -⟩ := C2_build_phase_atomic (.ok ())
    [("account_data", .ok ()), ("admin", .ok ()),
     ("appservice", .error (.buildFailed "appservice"))] (.ok ()) 5 hf
  exact ⟨hf, h₂ (.buildFailed "appservice") rfl (by decide), h₃⟩

theorem buildWithDeps_ok_iff (registry deps : List String) :
    buildWithDeps registry deps = .ok () ↔ ∀ d ∈ deps, d ∈ registry := by
  induction deps with
  | nil => simp [buildWithDeps]
  | cons d rest ih =>
      by_cases hd : d ∈ registry
      · simp [buildWithDeps, depend, hd, ih]
      · simp [buildWithDeps, depend, hd]

theorem buildSeqAux_ok_iff (svcs : List (String × List String))
    (registry : List String) :
    (∃ r, buildSeqAux registry svcs = .ok r) ↔ depsResolved registry svcs := by
  induction svcs generalizing registry with
  | nil => simp [buildSeqAux, depsResolved]
  | cons hd tl ih =>
      obtain ⟨n, deps⟩ := hd
      by_cases hok : buildWithDeps registry deps = .ok ()
      · have hall := (buildWithDeps_ok_iff registry deps).mp hok
        simp only [buildSeqAux, hok, depsResolved]
        rw [ih (registry ++ [n])]
        exact ⟨fun h => ⟨hall, h⟩, fun h => h.2⟩
      · have hne : ¬ (∀ x ∈ deps, x ∈ registry) :=
          fun hall => hok ((buildWithDeps_ok_iff registry deps).mpr hall)
        rcases he : buildWithDeps registry deps with e | v
        · simp only [buildSeqAux, he, depsResolved]
          constructor
          · rintro ⟨r, hr⟩; cases hr
          · rintro ⟨hall, -⟩; exact absurd hall hne
        · exact absurd (by cases v; exact he) hok

/-- C1: an aggregate build succeeds iff every `depend` call resolves to
an entry previously inserted into the Registry; and the social-service
construction sequence, which builds `resolver` (whose `build` calls
`depend::<client::Service>("client")`) before `client`, never
completes, whatever the dep lists of the services outside `src/` are:
`start` fails the build deterministically. -/
theorem C1_build_order_determines_start (extraDeps : String → List String) :
    (∀ svcs registry,
        (∃ r, buildSeqAux registry svcs = .ok r) ↔ depsResolved registry svcs) ∧
    (∀ r, buildSeqAux [] (socialBuildOrder extraDeps) ≠ .ok r) := by
  refine ⟨fun svcs registry => buildSeqAux_ok_iff svcs registry, ?_⟩
  intro r hok
  have hres : depsResolved [] (socialBuildOrder extraDeps) :=
    (buildSeqAux_ok_iff (socialBuildOrder extraDeps) []).mp ⟨r, hok⟩
  have hclient := hres.2.2.2.1 "client" (by simp)
  simp at hclient

/-- Closed instance of C1: a well-ordered two-service sequence builds;
the social-service sequence (dep lists of out-of-src services taken
empty) does not. -/
theorem C1_build_order_determines_start_witness :
    (∃ r, buildSeqAux [] [("globals", []), ("updates", ["globals"])] = .ok r) ∧
    (∀ r, buildSeqAux [] (socialBuildOrder (fun _ => [])) ≠ .ok r) := by
  obtain ⟨hiff, -⟩ := C1_build_order_determines_start (fun _ => [])
  obtain ⟨-, hsocial⟩ := C1_build_order_determines_start (fun _ => [])
  refine ⟨(hiff _ []).mpr (by decide), hsocial⟩

theorem mem_mapKeys_copy (out_map in_map : SMap) (k : String) :
    k ∈ mapKeys (copy_service_map out_map in_map) ↔
      k ∈ mapKeys in_map ∨ k ∈ mapKeys out_map := by
  induction in_map generalizing out_map with
  | nil => simp [copy_service_map, mapKeys]
  | cons hd tl ih =>
      obtain ⟨kh, vh⟩ := hd
      simp only [copy_service_map, List.foldl_cons] at ih ⊢
      rw [ih]
      rw [mapKeys_mapInsert]
      simp only [mapKeys, List.map_cons, List.mem_cons]
      tauto

theorem mapKeys_nodup_mapInsert (m : SMap) (k : String) (v : MapVal)
    (h : (mapKeys m).Nodup) : (mapKeys (mapInsert m k v)).Nodup := by
  induction m with
  | nil => simp [mapInsert, mapKeys]
  | cons hd tl ih =>
      obtain ⟨kh, vh⟩ := hd
      simp only [mapKeys, List.map_cons, List.nodup_cons] at h
      by_cases hk : kh = k
      · subst hk
        have he : mapInsert ((kh, vh) :: tl) kh v = (kh, v) :: tl := by
          simp [mapInsert]
        rw [he]
        simp only [mapKeys, List.map_cons, List.nodup_cons]
        exact h
      · simp only [mapInsert, if_neg hk, mapKeys, List.map_cons, List.nodup_cons]
        refine ⟨?_, ih h.2⟩
        intro hmem
        rcases (mapKeys_mapInsert tl k v kh).mp hmem with he | hmem₂
        · exact hk he
        · exact h.1 hmem₂

theorem pairPoll_assoc (p₁ p₂ p₃ : PollComp) :
    pairPoll p₁ (pairPoll p₂ p₃) = pairPoll (pairPoll p₁ p₂) p₃ := by
  obtain ⟨r₁, t₁⟩ := p₁
  obtain ⟨r₂, t₂⟩ := p₂
  obtain ⟨r₃, t₃⟩ := p₃
  rcases r₁ with e₁ | v₁
  · rfl
  · rcases r₂ with e₂ | v₂
    · rfl
    · simp [pairPoll, List.append_assoc]

/-- C7: for bundles with pairwise disjoint service names, the nestings
`(A, (B, C))` and `((A, B), C)` expose the same merged `service_map`
name set (both the union of the three name sets), and their aggregate
`poll` computations — the nested pair `poll` over the traced per-bundle
poll computations — are identical. -/
theorem C7_composition_associative (mA mB mC : SMap) (pA pB pC : PollComp)
    (hAB : ∀ k, k ∈ mapKeys mA → k ∉ mapKeys mB)
    (hAC : ∀ k, k ∈ mapKeys mA → k ∉ mapKeys mC)
    (hBC : ∀ k, k ∈ mapKeys mB → k ∉ mapKeys mC) :
    (∀ k, k ∈ mapKeys (tuple_service_map mA (tuple_service_map mB mC)) ↔
        k ∈ mapKeys (tuple_service_map (tuple_service_map mA mB) mC)) ∧
    (∀ k, k ∈ mapKeys (tuple_service_map mA (tuple_service_map mB mC)) ↔
        k ∈ mapKeys mA ∨ k ∈ mapKeys mB ∨ k ∈ mapKeys mC) ∧
    pairPoll pA (pairPoll pB pC) = pairPoll (pairPoll pA pB) pC := by
  have hmem : ∀ m₁ m₂ k, k ∈ mapKeys (tuple_service_map m₁ m₂) ↔
      k ∈ mapKeys m₁ ∨ k ∈ mapKeys m₂ := by
    intro m₁ m₂ k
    unfold tuple_service_map
    rw [mem_mapKeys_copy, mem_mapKeys_copy]
    simp only [mapKeys, List.map_nil, List.not_mem_nil, or_false]
    tauto
  refine ⟨?_, ?_, pairPoll_assoc pA pB pC⟩
  · intro k
    rw [hmem, hmem, hmem, hmem]
    tauto
  · intro k
    rw [hmem, hmem]

/-- Closed instance of C7 at concrete maps and poll computations. -/
theorem C7_composition_associative_witness :
    (∀ k, k ∈ mapKeys (tuple_service_map [("a", ⟨0, 0⟩)]
        (tuple_service_map [("b", ⟨1, 1⟩)] [("c", ⟨2, 2⟩)])) ↔
      k ∈ mapKeys (tuple_service_map
        (tuple_service_map [("a", ⟨0, 0⟩)] [("b", ⟨1, 1⟩)]) [("c", ⟨2, 2⟩)])) ∧
    pairPoll (leafPoll 1 (.ok ())) (pairPoll (leafPoll 2 (.error (.worker "x")))
        (leafPoll 3 (.ok ()))) =
      pairPoll (pairPoll (leafPoll 1 (.ok ())) (leafPoll 2 (.error (.worker "x"))))
        (leafPoll 3 (.ok ())) := by
  obtain ⟨h₁, -, -⟩ := C7_composition_associative
    [("a", ⟨0, 0⟩)] [("b", ⟨1, 1⟩)] [("c", ⟨2, 2⟩)]
    (leafPoll 1 (.ok ())) (leafPoll 2 (.error (.worker "x"))) (leafPoll 3 (.ok ()))
    (by decide) (by decide) (by decide)
  obtain ⟨-, -, h₃⟩ := C7_composition_associative
    [("a", ⟨0, 0⟩)] [("b", ⟨1, 1⟩)] [("c", ⟨2, 2⟩)]
    (leafPoll 1 (.ok ())) (leafPoll 2 (.error (.worker "x"))) (leafPoll 3 (.ok ()))
    (by decide) (by decide) (by decide)
  exact ⟨h₁, h₃⟩

/-- C9: in a tuple composition the merged `service_map` is
right-biased — on a name present in both halves the second-bundle
entry wins — and it is a fresh copy: a key inserted into a half after
the merge was computed is absent from the previously merged map. -/
theorem C9_tuple_map_bias_and_freshness (m₁ m₂ : SMap) (k : String) (v : MapVal)
    (h₁ : (mapKeys m₁).Nodup) (h₂ : (mapKeys m₂).Nodup) :
    (k ∈ mapKeys m₂ → mapLookup (tuple_service_map m₁ m₂) k = mapLookup m₂ k) ∧
    (k ∉ mapKeys m₂ → mapLookup (tuple_service_map m₁ m₂) k = mapLookup m₁ k) ∧
    (k ∉ mapKeys m₁ → k ∉ mapKeys m₂ →
        mapLookup (tuple_service_map m₁ m₂) k = none ∧
        mapLookup (tuple_service_map (mapInsert m₁ k v) m₂) k = some v ∧
        mapLookup (tuple_service_map m₁ (mapInsert m₂ k v)) k = some v) := by
  have hcopy : ∀ m : SMap, (mapKeys m).Nodup →
      mapLookup (copy_service_map [] m) k = mapLookup m k := by
    intro m hm
    rw [mapLookup_copy [] m k hm]
    cases mapLookup m k <;> rfl
  have hbase : ∀ ma mb : SMap, (mapKeys ma).Nodup → (mapKeys mb).Nodup →
      mapLookup (tuple_service_map ma mb) k =
        (mapLookup mb k).or (mapLookup ma k) := by
    intro ma mb hma hmb
    unfold tuple_service_map
    rw [mapLookup_copy _ mb k hmb, hcopy ma hma]
  refine ⟨?_, ?_, ?_⟩
  · intro hk
    rw [hbase m₁ m₂ h₁ h₂]
    rcases hs : mapLookup m₂ k with - | v₂
    · rw [mem_mapKeys_iff_lookup, hs] at hk
      cases hk
    · rfl
  · intro hk
    rw [hbase m₁ m₂ h₁ h₂, mapLookup_eq_none_of_not_mem m₂ k hk]
    cases mapLookup m₁ k <;> rfl
  · intro hk₁ hk₂
    have hn₁ := mapLookup_eq_none_of_not_mem m₁ k hk₁
    have hn₂ := mapLookup_eq_none_of_not_mem m₂ k hk₂
    refine ⟨?_, ?_, ?_⟩
    · rw [hbase m₁ m₂ h₁ h₂, hn₁, hn₂]; rfl
    · rw [hbase (mapInsert m₁ k v) m₂ (mapKeys_nodup_mapInsert m₁ k v h₁) h₂,
        hn₂, mapLookup_mapInsert, if_pos rfl]
      rfl
    · rw [hbase m₁ (mapInsert m₂ k v) h₁ (mapKeys_nodup_mapInsert m₂ k v h₂),
        mapLookup_mapInsert, if_pos rfl]
      rfl

/-- Closed instance of C9: the second-half entry overwrites the
first, and a later insert is absent from the earlier merge. -/
theorem C9_tuple_map_bias_and_freshness_witness :
    mapLookup (tuple_service_map [("a", ⟨0, 0⟩)] [("a", ⟨1, 1⟩)]) "a" =
      mapLookup [("a", ⟨1, 1⟩)] "a" ∧
    mapLookup (tuple_service_map [("a", ⟨0, 0⟩)] [("b", ⟨1, 1⟩)]) "c" = none ∧
    mapLookup (tuple_service_map (mapInsert [("a", ⟨0, 0⟩)] "c" ⟨2, 2⟩)
        [("b", ⟨1, 1⟩)]) "c" = some ⟨2, 2⟩ := by
  obtain ⟨hbias, -, -⟩ := C9_tuple_map_bias_and_freshness
    [("a", ⟨0, 0⟩)] [("a", ⟨1, 1⟩)] "a" ⟨2, 2⟩ (by decide) (by decide)
  obtain ⟨-, -, hfresh⟩ := C9_tuple_map_bias_and_freshness
    [("a", ⟨0, 0⟩)] [("b", ⟨1, 1⟩)] "c" ⟨2, 2⟩ (by decide) (by decide)
  obtain ⟨hf₁, hf₂, -⟩ := hfresh (by decide) (by decide)
  exact ⟨hbias (by decide), hf₁, hf₂⟩

/-- C8: the `services()` snapshot is a point-in-time copy: it contains
the handle of every entry whose `Service` weak handle upgrades at
snapshot time, already-dropped entries are filtered out, an object that
no entry referenced when the snapshot was taken (e.g. a service
inserted afterwards) never appears in it, and everything in it came
from some entry that upgraded. -/
theorem C8_snapshot_point_in_time (h : Heap) (m : SMap) (id : Nat)
    (k : String) (v : MapVal) (hmem : (k, v) ∈ m) :
    (0 < h v.svc → v.svc ∈ servicesSnapshot h m) ∧
    (h id = 0 → id ∉ servicesSnapshot h m) ∧
    ((∀ kv ∈ m, kv.2.svc ≠ id) → id ∉ servicesSnapshot h m) ∧
    (id ∈ servicesSnapshot h m → ∃ kv ∈ m, kv.2.svc = id ∧ 0 < h id) := by
  refine ⟨?_, ?_, ?_, (mem_servicesSnapshot h m id).mp⟩
  · intro hpos
    exact (mem_servicesSnapshot h m v.svc).mpr ⟨(k, v), hmem, rfl, hpos⟩
  · intro hz hin
    obtain ⟨kv, -, -, hpos⟩ := (mem_servicesSnapshot h m id).mp hin
    omega
  · intro hfresh hin
    obtain ⟨kv, hkv, hsvc, -⟩ := (mem_servicesSnapshot h m id).mp hin
    exact hfresh kv hkv hsvc

/-- Closed instance of C8: a live entry is in the snapshot, a dropped
one and a later-inserted fresh object are not. -/
theorem C8_snapshot_point_in_time_witness :
    (("live", (⟨0, 0⟩ : MapVal)) ∈
        ([("dead", ⟨1, 1⟩), ("live", ⟨0, 0⟩)] : SMap)) ∧
    0 ∈ servicesSnapshot (fun i => if i = 0 then 1 else 0)
      [("dead", ⟨1, 1⟩), ("live", ⟨0, 0⟩)] ∧
    1 ∉ servicesSnapshot (fun i => if i = 0 then 1 else 0)
      [("dead", ⟨1, 1⟩), ("live", ⟨0, 0⟩)] ∧
    2 ∉ servicesSnapshot (fun i => if i = 0 then 1 else 0)
      [("dead", ⟨1, 1⟩), ("live", ⟨0, 0⟩)] := by
  obtain ⟨hlive, -, -, -⟩ := C8_snapshot_point_in_time
    (fun i => if i = 0 then 1 else 0) [("dead", ⟨1, 1⟩), ("live", ⟨0, 0⟩)]
    0 "live" ⟨0, 0⟩ (by decide)
  obtain ⟨-, hdead, -, -⟩ := C8_snapshot_point_in_time
    (fun i => if i = 0 then 1 else 0) [("dead", ⟨1, 1⟩), ("live", ⟨0, 0⟩)]
    1 "live" ⟨0, 0⟩ (by decide)
  obtain ⟨-, -, hfresh, -⟩ := C8_snapshot_point_in_time
    (fun i => if i = 0 then 1 else 0) [("dead", ⟨1, 1⟩), ("live", ⟨0, 0⟩)]
    2 "live" ⟨0, 0⟩ (by decide)
  exact ⟨by decide, hlive (by decide), hdead (by decide), hfresh (by decide)⟩

/-- C3: `add_service` stores only downgraded handles, so inserting
into the Registry never changes any strong count (the Registry never
extends the lifetime of any service); consequently after the
build → stop → drop-last-strong-reference round trip, every Registry
entry has weak handles that fail to upgrade. -/
theorem C3_registry_never_owns (names : List String) (k : String) (v : MapVal)
    (hlk : mapLookup (lifecycleEnd names).registry k = some v) :
    (∀ st n s a, (add_service st n s a).heap = st.heap) ∧
    upgrade (lifecycleEnd names).heap v.svc = none ∧
    upgrade (lifecycleEnd names).heap v.any = none := by
  refine ⟨fun _ _ _ _ => rfl, ?_, ?_⟩
  · rw [upgrade, lifecycleEnd_heap names v.svc]
    simp
  · rw [upgrade, lifecycleEnd_heap names v.any]
    simp

/-- Closed instance of C3 on a two-service lifecycle. -/
theorem C3_registry_never_owns_witness :
    mapLookup (lifecycleEnd ["globals", "updates"]).registry "updates" =
      some ⟨1, 1⟩ ∧
    upgrade (lifecycleEnd ["globals", "updates"]).heap 1 = none := by
  obtain ⟨-, hsvc, -⟩ := C3_registry_never_owns ["globals", "updates"]
    "updates" ⟨1, 1⟩ (by decide)
  exact ⟨by decide, hsvc⟩

end Miniwuit
